import Mathlib

/-!
Shallow embedding of `dynamic_crew.py`: the plan-extraction, agent/task
binding and crew-assembly pipeline of the dynamic CrewAI agent factory.
Python strings are modelled as `List Char`; Python dicts as ordered
association lists with last-binding lookup and overwriting insertion
(the semantics of Python `dict`); raised exceptions as `Except` errors.
-/

namespace DynamicCrew

/-- The opening-brace character `\x7b` (written via its code point). -/
def obr : Char := Char.ofNat 123

/-- The closing-brace character `\x7d` (written via its code point). -/
def cbr : Char := Char.ofNat 125

/-- The backtick character (written via its code point). -/
def btick : Char := Char.ofNat 96

/-- JSON values, the result type of Python's `json.loads` as used by
`PromptAnalyzer.analyze`.  Numbers are restricted to integers: the
pipeline's documents carry no fractional numbers. -/
inductive Json where
  | jnull : Json
  | jbool : Bool → Json
  | jnum : Int → Json
  | jstr : String → Json
  | jarr : List Json → Json
  | jobj : List (String × Json) → Json

open Json

/-- Lookup in a Python dict modelled as an association list; the *last*
binding of a key wins, matching `dict` construction order semantics. -/
def lookupDict {α : Type} : List (String × α) → String → Option α
  | [], _ => none
  | (k', v) :: rest, k =>
    match lookupDict rest k with
    | some r => some r
    | none => if k' = k then some v else none

/-- Membership test of a key in a Python dict (`k in d`). -/
def dictMem {α : Type} (m : List (String × α)) (k : String) : Bool :=
  (lookupDict m k).isSome

/-- Python dict assignment `d[k] = v`: overwrites the value in place if
the key exists, otherwise appends, preserving insertion order. -/
def dictInsert {α : Type} (m : List (String × α)) (k : String) (v : α) :
    List (String × α) :=
  if dictMem m k then m.map (fun p => if p.1 = k then (k, v) else p)
  else m ++ [(k, v)]

/-- Python whitespace characters removed by `str.strip()` (ASCII subset,
which is all that occurs in this pipeline). -/
def isWsChar (c : Char) : Bool :=
  c = ' ' || c = '\t' || c = '\n' || c = '\r'

/-- Python `content.strip()`: drop whitespace from both ends. -/
def pyStrip (l : List Char) : List Char :=
  ((l.dropWhile isWsChar).reverse.dropWhile isWsChar).reverse

/-- Python substring membership `pat in s`. -/
def containsSub (pat : List Char) : List Char → Bool
  | [] => pat.isEmpty
  | c :: rest => pat.isPrefixOf (c :: rest) || containsSub pat rest

/-- Python `s.replace(pat, "", 1)` for a nonempty pattern `p :: ps`:
delete the first occurrence of the pattern. -/
def replaceFirst (p : Char) (ps : List Char) : List Char → List Char
  | [] => []
  | c :: rest =>
    if (p :: ps).isPrefixOf (c :: rest) then rest.drop ps.length
    else c :: replaceFirst p ps rest

/-- Fueled core of Python `s.replace(pat, "")` for a nonempty pattern
`p :: ps`: delete every (leftmost-first, non-overlapping) occurrence.
Each step consumes at least one character, so fuel `= length` suffices. -/
def replaceAllF (p : Char) (ps : List Char) : Nat → List Char → List Char
  | 0, l => l
  | _ + 1, [] => []
  | fuel + 1, c :: rest =>
    if (p :: ps).isPrefixOf (c :: rest) then
      replaceAllF p ps fuel (rest.drop ps.length)
    else c :: replaceAllF p ps fuel rest

/-- Python `s.replace(pat, "")` for a nonempty pattern. -/
def replaceAll (p : Char) (ps : List Char) (l : List Char) : List Char :=
  replaceAllF p ps l.length l

/-- The suffix starting at the first occurrence of `t`, if any. -/
def dropUntil (t : Char) : List Char → Option (List Char)
  | [] => none
  | c :: rest => if c = t then some (c :: rest) else dropUntil t rest

/-- Model of `re.search(r'(\x7b[\s\S]*\x7d)', content)`: the (greedy)
match runs from the first opening brace to the last closing brace after
it; `none` when no such span exists. -/
def braceSpan (l : List Char) : Option (List Char) :=
  match dropUntil obr l with
  | none => none
  | some s =>
    match dropUntil cbr s.reverse with
    | none => none
    | some r => some r.reverse

/-- Whether `t` occurs in the list. -/
def containsChar (t : Char) : List Char → Bool
  | [] => false
  | c :: rest => if c = t then true else containsChar t rest

/-- Fueled core of `re.sub(r'\x7b[^\x7d]*\x7d', '', s)` used by
`TaskFactory.create_tasks`: each span from an opening brace to the next
closing brace is deleted; an opening brace with no later closing brace
is kept.  Each step consumes at least one character, so fuel `= length`
suffices. -/
def removeBrF : Nat → List Char → List Char
  | 0, l => l
  | _ + 1, [] => []
  | fuel + 1, c :: rest =>
    if c = obr then
      match dropUntil cbr rest with
      | some s => removeBrF fuel (s.drop 1)
      | none => c :: removeBrF fuel rest
    else c :: removeBrF fuel rest

/-- The brace-removal sanitization `re.sub(r'\x7b[^\x7d]*\x7d', '', s)`
on character lists. -/
def removeBr (l : List Char) : List Char :=
  removeBrF l.length l

/-- The brace-removal sanitization on strings, as applied to task
descriptions in `TaskFactory.create_tasks`. -/
def removeBraces (s : String) : String :=
  String.mk (removeBr s.data)

/-- Whether the list still contains a brace-delimited span (an opening
brace with a later closing brace). -/
def hasSpan : List Char → Bool
  | [] => false
  | c :: rest => (decide (c = obr) && containsChar cbr rest) || hasSpan rest

/-- Skip JSON whitespace. -/
def skipWs : List Char → List Char
  | [] => []
  | c :: rest => if isWsChar c then skipWs rest else c :: rest

/-- Decode a JSON string escape character (after a backslash).  The
`\uXXXX` form is not modelled: none of the pipeline's documents use it. -/
def decodeEsc (c : Char) : Option Char :=
  if c = '"' then some '"'
  else if c = '\\' then some '\\'
  else if c = '/' then some '/'
  else if c = 'n' then some '\n'
  else if c = 't' then some '\t'
  else if c = 'r' then some '\r'
  else if c = 'b' then some (Char.ofNat 8)
  else if c = 'f' then some (Char.ofNat 12)
  else none

/-- Parse the body of a JSON string after the opening quote; returns the
decoded characters and the remainder after the closing quote. -/
def parseStrChars : Nat → List Char → Option (List Char × List Char)
  | 0, _ => none
  | _ + 1, [] => none
  | fuel + 1, c :: rest =>
    if c = '"' then some ([], rest)
    else if c = '\\' then
      match rest with
      | [] => none
      | e :: rest2 =>
        match decodeEsc e with
        | none => none
        | some d =>
          match parseStrChars fuel rest2 with
          | none => none
          | some (s, r) => some (d :: s, r)
    else
      match parseStrChars fuel rest with
      | none => none
      | some (s, r) => some (c :: s, r)

/-- Expect the given literal characters at the head of the input. -/
def expectChars : List Char → List Char → Option (List Char)
  | [], l => some l
  | e :: es, c :: rest => if c = e then expectChars es rest else none
  | _ :: _, [] => none

/-- Parse a run of decimal digits into a natural number accumulator. -/
def parseDigits : List Char → Nat → Nat × List Char
  | c :: rest, acc =>
    if c.isDigit then parseDigits rest (acc * 10 + (c.toNat - 48))
    else (acc, c :: rest)
  | [], acc => (acc, [])

/-- Parse a JSON integer (an optional minus sign and digits). -/
def parseNum : List Char → Option (Int × List Char)
  | c :: rest =>
    if c = '-' then
      match rest with
      | d :: _ =>
        if d.isDigit then
          let (n, r) := parseDigits rest 0
          some (-(n : Int), r)
        else none
      | [] => none
    else if c.isDigit then
      let (n, r) := parseDigits (c :: rest) 0
      some ((n : Int), r)
    else none
  | [] => none

mutual

/-- Fueled recursive-descent parser for a JSON value, modelling Python's
`json.loads`; returns the value and the unconsumed remainder. -/
def parseVal : Nat → List Char → Option (Json × List Char)
  | 0, _ => none
  | fuel + 1, l =>
    match skipWs l with
    | [] => none
    | c :: rest =>
      if c = '"' then
        match parseStrChars (rest.length + 1) rest with
        | none => none
        | some (s, r) => some (jstr (String.mk s), r)
      else if c = obr then
        match skipWs rest with
        | d :: rest2 =>
          if d = cbr then some (jobj [], rest2)
          else parseMembers fuel (d :: rest2)
        | [] => none
      else if c = '[' then
        match skipWs rest with
        | d :: rest2 =>
          if d = ']' then some (jarr [], rest2)
          else parseElems fuel (d :: rest2)
        | [] => none
      else if c = 't' then
        match expectChars "rue".data rest with
        | some r => some (jbool true, r)
        | none => none
      else if c = 'f' then
        match expectChars "alse".data rest with
        | some r => some (jbool false, r)
        | none => none
      else if c = 'n' then
        match expectChars "ull".data rest with
        | some r => some (jnull, r)
        | none => none
      else
        match parseNum (c :: rest) with
        | some (n, r) => some (jnum n, r)
        | none => none

/-- Parse the members of a JSON object (after at least one is known to
follow); returns the object and the remainder after the closing brace. -/
def parseMembers : Nat → List Char → Option (Json × List Char)
  | 0, _ => none
  | fuel + 1, l =>
    match skipWs l with
    | c :: rest =>
      if c = '"' then
        match parseStrChars (rest.length + 1) rest with
        | none => none
        | some (k, r) =>
          match skipWs r with
          | d :: r2 =>
            if d = ':' then
              match parseVal fuel r2 with
              | none => none
              | some (v, r3) =>
                match skipWs r3 with
                | e :: r4 =>
                  if e = ',' then
                    match parseMembers fuel r4 with
                    | some (jobj kvs, r5) => some (jobj ((String.mk k, v) :: kvs), r5)
                    | _ => none
                  else if e = cbr then some (jobj [(String.mk k, v)], r4)
                  else none
                | [] => none
            else none
          | [] => none
      else none
    | [] => none

/-- Parse the elements of a JSON array (after at least one is known to
follow); returns the array and the remainder after the closing bracket. -/
def parseElems : Nat → List Char → Option (Json × List Char)
  | 0, _ => none
  | fuel + 1, l =>
    match parseVal fuel l with
    | none => none
    | some (v, r) =>
      match skipWs r with
      | e :: r2 =>
        if e = ',' then
          match parseElems fuel r2 with
          | some (jarr xs, r3) => some (jarr (v :: xs), r3)
          | _ => none
        else if e = ']' then some (jarr [v], r2)
        else none
      | [] => none

end

/-- Model of Python `json.loads`: parse one JSON value and require only
whitespace to remain. -/
def json_loads (l : List Char) : Option Json :=
  match parseVal (l.length + 1) l with
  | none => none
  | some (v, rest) => if skipWs rest = [] then some v else none

/-- The code-fence marker "```json" as a character list. -/
def fenceJson : List Char := [btick, btick, btick, 'j', 's', 'o', 'n']

/-- The bare code-fence marker "```" as a character list. -/
def fence3 : List Char := [btick, btick, btick]

/-- The statement `if "```json" in content: content =
content.replace("```json", "", 1)` of `PromptAnalyzer.analyze`. -/
def fenceStep1 (c : List Char) : List Char :=
  if containsSub fenceJson c then replaceFirst btick (fenceJson.drop 1) c else c

/-- The statement `if "```" in content: content =
content.replace("```", "")` of `PromptAnalyzer.analyze`. -/
def fenceStep2 (c : List Char) : List Char :=
  if containsSub fence3 c then replaceAll btick (fence3.drop 1) c else c

/-- The recovery scan of `PromptAnalyzer.analyze`: restrict to the
first-brace-to-last-brace span when one exists. -/
def recoverSpan (c : List Char) : List Char :=
  match braceSpan c with
  | some s => s
  | none => c

/-- The normalization-and-recovery pipeline of `PromptAnalyzer.analyze`
applied to the raw model text before `json.loads`: strip whitespace,
delete the first "```json" if present, delete every "```" if present,
then restrict to the brace-delimited span if one exists. -/
def extractContent (raw : List Char) : List Char :=
  recoverSpan (fenceStep2 (fenceStep1 (pyStrip raw)))

/-- The deterministic fallback document built by `PromptAnalyzer.analyze`
when JSON parsing fails, with the goal text interpolated into the two
fixed task-description templates. -/
def fallbackJson (goal : String) : Json :=
  jobj
    [("agents", jarr
        [jobj
          [("role", jstr "Researcher"),
           ("goal", jstr "Research information related to the task"),
           ("backstory", jstr "Expert researcher with analytical skills"),
           ("tools", jarr [jstr "ExaSearchTool"])],
         jobj
          [("role", jstr "Writer"),
           ("goal", jstr "Create content based on research findings"),
           ("backstory", jstr "Expert writer skilled at creating engaging content"),
           ("tools", jarr [])]]),
     ("tasks", jarr
        [jobj
          [("description", jstr ("Research information about: " ++ goal)),
           ("expected_output", jstr "Comprehensive research findings"),
           ("agent_role", jstr "Researcher")],
         jobj
          [("description", jstr ("Create content about: " ++ goal ++ " based on the research")),
           ("expected_output", jstr "Engaging and informative content"),
           ("agent_role", jstr "Writer")]]),
     ("process", jstr "sequential")]

/-- `PromptAnalyzer.analyze`, given the raw text returned by the
language model (an external collaborator) and the user goal: normalize
and parse the text, falling back to the deterministic document on any
parse failure.  A total function: extraction never raises. -/
def analyze (raw : List Char) (goal : String) : Json :=
  match json_loads (extractContent raw) with
  | some j => j
  | none => fallbackJson goal

/-- The three executable tools of the registry (`AgentFactory.tools_map`);
opaque capabilities from the core's point of view. -/
inductive Tool where
  | exaSearchTool : Tool
  | websiteSearchTool : Tool
  | fileReadTool : Tool
deriving DecidableEq

/-- The tool registry `AgentFactory.tools_map`. -/
def tools_map : List (String × Tool) :=
  [("ExaSearchTool", Tool.exaSearchTool),
   ("WebsiteSearchTool", Tool.websiteSearchTool),
   ("FileReadTool", Tool.fileReadTool)]

/-- A bound CrewAI agent as constructed by `AgentFactory.create_agents`
(the constant `verbose=True` flag is omitted). -/
structure AgentHandle where
  role : String
  goal : String
  backstory : String
  tools : List Tool
deriving DecidableEq

/-- A bound CrewAI task as constructed by `TaskFactory.create_tasks`. -/
structure TaskHandle where
  description : String
  expected_output : String
  agent : AgentHandle
deriving DecidableEq

/-- The errors the pipeline can raise: `shapeError f` models the
KeyError/TypeError raised when the parsed design lacks the required
structure at field `f`; `unknownAgentRole r` models the
`ValueError(f"Agent with role '...' not found for task")` raised by
`TaskFactory.create_tasks` (the spec's `UnknownAgentRoleError`). -/
inductive PipelineError where
  | shapeError : String → PipelineError
  | unknownAgentRole : String → PipelineError
deriving DecidableEq

/-- Python `spec[k]` on a parsed JSON value: the value at key `k`,
failing (KeyError/TypeError) when absent or when `spec` is not an
object. -/
def getJField (j : Json) (k : String) : Except PipelineError Json :=
  match j with
  | jobj kvs =>
    match lookupDict kvs k with
    | some v => Except.ok v
    | none => Except.error (PipelineError.shapeError k)
  | _ => Except.error (PipelineError.shapeError k)

/-- Python `spec[k]` where the value is used as a string. -/
def getJStrField (j : Json) (k : String) : Except PipelineError String :=
  match getJField j k with
  | Except.ok (jstr s) => Except.ok s
  | Except.ok _ => Except.error (PipelineError.shapeError k)
  | Except.error e => Except.error e

/-- Python `design[k]` where the value is iterated as a list. -/
def getJListField (j : Json) (k : String) : Except PipelineError (List Json) :=
  match getJField j k with
  | Except.ok (jarr xs) => Except.ok xs
  | Except.ok _ => Except.error (PipelineError.shapeError k)
  | Except.error e => Except.error e

/-- Decode a JSON array of strings (the `tools` list of an agent spec). -/
def jstrList : List Json → Except PipelineError (List String)
  | [] => Except.ok []
  | jstr s :: rest =>
    match jstrList rest with
    | Except.ok ss => Except.ok (s :: ss)
    | Except.error e => Except.error e
  | _ :: _ => Except.error (PipelineError.shapeError "tools")

/-- The tool-resolution loop of `AgentFactory.create_agents`: resolve
each requested name through the registry in order, skipping unknown
names and recording the warning message printed for each of them. -/
def resolveTools : List String → List Tool × List String
  | [] => ([], [])
  | n :: rest =>
    let (ts, ws) := resolveTools rest
    match lookupDict tools_map n with
    | some t => (t :: ts, ws)
    | none => (ts, ("Warning: Tool \x27" ++ n ++ "\x27 not found, skipping") :: ws)

/-- The loop body of `AgentFactory.create_agents`, threading the
role-to-agent dict and the list of recorded warnings. -/
def create_agentsAux :
    List Json → List (String × AgentHandle) → List String →
      Except PipelineError (List (String × AgentHandle) × List String)
  | [], agents, warns => Except.ok (agents, warns)
  | spec :: rest, agents, warns =>
    match getJStrField spec "role" with
    | Except.error e => Except.error e
    | Except.ok role =>
      match getJStrField spec "goal" with
      | Except.error e => Except.error e
      | Except.ok goal =>
        match getJStrField spec "backstory" with
        | Except.error e => Except.error e
        | Except.ok backstory =>
          match
            (match spec with
             | jobj kvs =>
               match lookupDict kvs "tools" with
               | none => Except.ok []
               | some (jarr xs) => jstrList xs
               | some _ => Except.error (PipelineError.shapeError "tools")
             | _ => Except.ok []) with
          | Except.error e => Except.error e
          | Except.ok names =>
            let (tools, ws) := resolveTools names
            create_agentsAux rest
              (dictInsert agents role (AgentHandle.mk role goal backstory tools))
              (warns ++ ws)

/-- `AgentFactory.create_agents`: bind a list of agent specs into the
role-to-agent dict, returning it with the recorded tool warnings.  Note
that a duplicate role silently overwrites the earlier entry
(`agents[role] = agent` on a dict): no error is raised. -/
def create_agents (specs : List Json) :
    Except PipelineError (List (String × AgentHandle) × List String) :=
  create_agentsAux specs [] []

/-- The loop body of `TaskFactory.create_tasks`: look up the task's
agent role (raising `unknownAgentRole` when absent), sanitize the
description, and build the task. -/
def create_tasksAux :
    List Json → List (String × AgentHandle) → Except PipelineError (List TaskHandle)
  | [], _ => Except.ok []
  | spec :: rest, agents =>
    match getJStrField spec "agent_role" with
    | Except.error e => Except.error e
    | Except.ok agent_role =>
      match lookupDict agents agent_role with
      | none => Except.error (PipelineError.unknownAgentRole agent_role)
      | some ag =>
        match getJStrField spec "description" with
        | Except.error e => Except.error e
        | Except.ok description =>
          match getJStrField spec "expected_output" with
          | Except.error e => Except.error e
          | Except.ok expected =>
            match create_tasksAux rest agents with
            | Except.error e => Except.error e
            | Except.ok ts =>
              Except.ok (TaskHandle.mk (removeBraces description) expected ag :: ts)

/-- `TaskFactory.create_tasks`. -/
def create_tasks (specs : List Json) (agents : List (String × AgentHandle)) :
    Except PipelineError (List TaskHandle) :=
  create_tasksAux specs agents

/-- The execution topology (`crewai.Process`). -/
inductive Process where
  | sequential : Process
  | hierarchical : Process
deriving DecidableEq

/-- Python `str.lower()` (ASCII, which covers every string compared by
this pipeline). -/
def lowerChar (c : Char) : Char :=
  if 'A' ≤ c ∧ c ≤ 'Z' then Char.ofNat (c.toNat + 32) else c

/-- Python `s.lower()` on strings. -/
def pyLower (s : String) : String :=
  String.mk (s.data.map lowerChar)

/-- The crew handed to the external execution engine by
`CrewFactory.create_crew` (the constant `verbose=True` flag is
omitted). -/
structure Crew where
  agents : List AgentHandle
  tasks : List TaskHandle
  process : Process
deriving DecidableEq

/-- `CrewFactory.create_crew`: the topology selector defaults to
sequential and switches to hierarchical exactly when the lower-cased
process string equals "hierarchical". -/
def create_crew (agents : List (String × AgentHandle)) (tasks : List TaskHandle)
    (process_type : String) : Crew :=
  Crew.mk (agents.map Prod.snd) tasks
    (if pyLower process_type = "hierarchical" then Process.hierarchical
     else Process.sequential)

/-- Python `team_design.get("process", "sequential")` followed by the
string use in `create_crew`: the default applies when the key is
absent; a present non-string value fails at `.lower()`. -/
def getProcessField (design : Json) : Except PipelineError String :=
  match design with
  | jobj kvs =>
    match lookupDict kvs "process" with
    | none => Except.ok "sequential"
    | some (jstr s) => Except.ok s
    | some _ => Except.error (PipelineError.shapeError "process")
  | _ => Except.error (PipelineError.shapeError "process")

/-- The binding-and-hand-off stage of `DynamicCrewSystem.execute`, after
the team design has been produced: bind agents, bind tasks, assemble the
crew, and hand off to the execution engine (`crew.kickoff`, an external
collaborator passed as a parameter).  The engine is invoked only after
every binding step has succeeded. -/
def bindAndRun {R : Type} (engine : Crew → List (String × String) → R)
    (design : Json) (inputs : List (String × String)) :
    Except PipelineError R :=
  match getJListField design "agents" with
  | Except.error e => Except.error e
  | Except.ok agentSpecs =>
    match create_agents agentSpecs with
    | Except.error e => Except.error e
    | Except.ok (agents, _warns) =>
      match getJListField design "tasks" with
      | Except.error e => Except.error e
      | Except.ok taskSpecs =>
        match create_tasks taskSpecs agents with
        | Except.error e => Except.error e
        | Except.ok tasks =>
          match getProcessField design with
          | Except.error e => Except.error e
          | Except.ok processType =>
            Except.ok (engine (create_crew agents tasks processType) inputs)

/-- `DynamicCrewSystem.execute`, with the language model's raw response
text and the external execution engine abstracted as parameters:
analyze the goal into a team design, then bind and run it. -/
def executeModel {R : Type} (engine : Crew → List (String × String) → R)
    (raw : List Char) (goal : String) (inputs : List (String × String)) :
    Except PipelineError R :=
  bindAndRun engine (analyze raw goal) inputs

/-- An agent specification of a plan document (the data model's
`AgentSpec`): a role, goal, backstory and an ordered list of tool
names. -/
structure AgentSpec where
  role : String
  goal : String
  backstory : String
  tools : List String
deriving DecidableEq

/-- The JSON object carrying an `AgentSpec`, as the extractor hands it
to `AgentFactory.create_agents`. -/
def AgentSpec.toJson (s : AgentSpec) : Json :=
  jobj
    [("role", jstr s.role), ("goal", jstr s.goal),
     ("backstory", jstr s.backstory), ("tools", jarr (s.tools.map jstr))]

/-- A task specification of a plan document (the data model's
`TaskSpec`). -/
structure TaskSpec where
  description : String
  expected_output : String
  agent_role : String
deriving DecidableEq

/-- The JSON object carrying a `TaskSpec`, as the extractor hands it to
`TaskFactory.create_tasks`. -/
def TaskSpec.toJson (s : TaskSpec) : Json :=
  jobj
    [("description", jstr s.description),
     ("expected_output", jstr s.expected_output),
     ("agent_role", jstr s.agent_role)]

/-- The "Researcher" agent bound from the fallback document. -/
def researcherHandle : AgentHandle :=
  AgentHandle.mk "Researcher" "Research information related to the task"
    "Expert researcher with analytical skills" [Tool.exaSearchTool]

/-- The "Writer" agent bound from the fallback document. -/
def writerHandle : AgentHandle :=
  AgentHandle.mk "Writer" "Create content based on research findings"
    "Expert writer skilled at creating engaging content" []

/-- The crew that binding the fallback document for `goal` hands to the
execution engine (task descriptions pass through the brace-removal
sanitizer). -/
def fallbackCrew (goal : String) : Crew :=
  Crew.mk [researcherHandle, writerHandle]
    [TaskHandle.mk (removeBraces ("Research information about: " ++ goal))
       "Comprehensive research findings" researcherHandle,
     TaskHandle.mk
       (removeBraces ("Create content about: " ++ goal ++ " based on the research"))
       "Engaging and informative content" writerHandle]
    Process.sequential

/-- Wrap raw text in the code-fence markers handled by the extractor:
a "```json" opening fence and a "```" closing fence. -/
def wrapFence (raw : List Char) : List Char :=
  fenceJson ++ '\n' :: raw ++ '\n' :: fence3

/-- One search result of the Exa response consumed by
`exa_search_tool`. -/
structure ExaResult where
  title : String
  url : String
  highlights : List String
deriving DecidableEq

/-- Python `"\n".join(parts)`. -/
def pyJoin (sep : String) : List String → String
  | [] => ""
  | [x] => x
  | x :: y :: rest => x ++ sep ++ pyJoin sep (y :: rest)

/-- The fragment-list loop of `exa_search_tool`: for the result at
0-based index `idx` it appends the two f-strings
`"[SOURCE \x7bidx+1\x7d]\nTitle: \x7btitle\x7d\nURL: \x7burl\x7d\n"` and
`"Highlights:\n\x7b''.join(highlights)\x7d\n\n"`. -/
def exaFragments : Nat → List ExaResult → List String
  | _, [] => []
  | idx, r :: rest =>
    ("[SOURCE " ++ toString (idx + 1) ++ "]\nTitle: " ++ r.title
        ++ "\nURL: " ++ r.url ++ "\n")
      :: ("Highlights:\n" ++ String.join r.highlights ++ "\n\n")
      :: exaFragments (idx + 1) rest

/-- The formatting contract of `exa_search_tool`: the fragment list
joined with `"\n".join(results)`.  The network call and credential
handling are external collaborators; this is the observable text built
from the response's results. -/
def exa_search_tool (results : List ExaResult) : String :=
  pyJoin "\n" (exaFragments 0 results)

/-- The output format the specification claims for `exa_search_tool`:
the plain concatenation of one block
`"[SOURCE \x7bi\x7d]\nTitle: \x7btitle\x7d\nURL: \x7burl\x7d\nHighlights:\n\x7bjoinedHighlights\x7d\n\n"`
per result.  Stated from the spec's words, for comparison with the
source embedding. -/
def claimedExaFormat : Nat → List ExaResult → String
  | _, [] => ""
  | idx, r :: rest =>
    "[SOURCE " ++ toString (idx + 1) ++ "]\nTitle: " ++ r.title
      ++ "\nURL: " ++ r.url ++ "\nHighlights:\n" ++ String.join r.highlights
      ++ "\n\n" ++ claimedExaFormat (idx + 1) rest

/-- The per-result block actually emitted by `exa_search_tool`: the two
fragments of a result joined by the list separator, leaving a blank
line between the URL line and the `Highlights:` header — byte-wise
`"[SOURCE \x7bi\x7d]\nTitle: \x7btitle\x7d\nURL: \x7burl\x7d\n\nHighlights:\n\x7bjoinedHighlights\x7d\n\n"`. -/
def actualExaBlock (idx : Nat) (r : ExaResult) : String :=
  ("[SOURCE " ++ toString (idx + 1) ++ "]\nTitle: " ++ r.title
      ++ "\nURL: " ++ r.url ++ "\n")
    ++ "\n"
    ++ ("Highlights:\n" ++ String.join r.highlights ++ "\n\n")

/-- The per-result blocks from index `idx` on. -/
def amendedExaBlocks : Nat → List ExaResult → List String
  | _, [] => []
  | idx, r :: rest => actualExaBlock idx r :: amendedExaBlocks (idx + 1) rest

/-- The amended output format: the per-result blocks joined by single
newlines. -/
def amendedExaFormat (results : List ExaResult) : String :=
  pyJoin "\n" (amendedExaBlocks 0 results)

end DynamicCrew

namespace DynamicCrew

open Json

theorem dropUntil_mem {t : Char} :
    ∀ {l s : List Char}, dropUntil t l = some s → ∀ x ∈ s, x ∈ l := by
  intro l
  induction l with
  | nil => intro s h; simp [dropUntil] at h
  | cons c rest ih =>
    intro s h x hx
    simp only [dropUntil] at h
    split at h
    · injection h with h'
      exact h' ▸ hx
    · exact List.mem_cons_of_mem _ (ih h x hx)

theorem dropUntil_length {t : Char} :
    ∀ {l s : List Char}, dropUntil t l = some s → s.length ≤ l.length := by
  intro l
  induction l with
  | nil => intro s h; simp [dropUntil] at h
  | cons c rest ih =>
    intro s h
    simp only [dropUntil] at h
    split at h
    · injection h with h'
      rw [← h']
    · calc s.length ≤ rest.length := ih h
        _ ≤ (c :: rest).length := by simp

theorem dropUntil_none_not_mem {t : Char} :
    ∀ {l : List Char}, dropUntil t l = none → t ∉ l := by
  intro l
  induction l with
  | nil => intro _; simp
  | cons c rest ih =>
    intro h
    simp only [dropUntil] at h
    split at h
    · cases h
    · rename_i hc
      simp only [List.mem_cons, not_or]
      exact ⟨fun ht => hc ht.symm, ih h⟩

theorem not_mem_dropUntil_none {t : Char} :
    ∀ {l : List Char}, t ∉ l → dropUntil t l = none := by
  intro l
  induction l with
  | nil => intro _; rfl
  | cons c rest ih =>
    intro h
    simp only [List.mem_cons, not_or] at h
    simp only [dropUntil]
    rw [if_neg fun hc => h.1 hc.symm]
    exact ih h.2

theorem not_mem_containsChar {t : Char} :
    ∀ {l : List Char}, t ∉ l → containsChar t l = false := by
  intro l
  induction l with
  | nil => intro _; rfl
  | cons c rest ih =>
    intro h
    simp only [List.mem_cons, not_or] at h
    simp only [containsChar]
    rw [if_neg fun hc => h.1 hc.symm]
    exact ih h.2

theorem containsChar_false_not_mem {t : Char} :
    ∀ {l : List Char}, containsChar t l = false → t ∉ l := by
  intro l
  induction l with
  | nil => intro _; simp
  | cons c rest ih =>
    intro h
    simp only [containsChar] at h
    split at h
    · cases h
    · rename_i hc
      simp only [List.mem_cons, not_or]
      exact ⟨fun ht => hc ht.symm, ih h⟩

theorem mem_removeBrF {x : Char} :
    ∀ (fuel : Nat) (l : List Char), x ∈ removeBrF fuel l → x ∈ l := by
  intro fuel
  induction fuel with
  | zero => intro l h; exact h
  | succ fuel ih =>
    intro l h
    match l with
    | [] => exact absurd h (List.not_mem_nil x)
    | c :: rest =>
      simp only [removeBrF] at h
      split at h
      · rename_i hc
        split at h
        · rename_i s hdu
          have h1 : x ∈ s.drop 1 := ih _ h
          exact List.mem_cons_of_mem _ (dropUntil_mem hdu x (List.mem_of_mem_drop h1))
        · rcases List.mem_cons.mp h with h1 | h1
          · exact h1 ▸ List.mem_cons_self _ _
          · exact List.mem_cons_of_mem _ (ih _ h1)
      · rcases List.mem_cons.mp h with h1 | h1
        · exact h1 ▸ List.mem_cons_self _ _
        · exact List.mem_cons_of_mem _ (ih _ h1)

theorem hasSpan_removeBrF :
    ∀ (fuel : Nat) (l : List Char), l.length ≤ fuel →
      hasSpan (removeBrF fuel l) = false := by
  intro fuel
  induction fuel with
  | zero =>
    intro l hl
    have : l = [] := List.eq_nil_of_length_eq_zero (Nat.le_zero.mp hl)
    subst this
    rfl
  | succ fuel ih =>
    intro l hl
    match l with
    | [] => rfl
    | c :: rest =>
      have hrest : rest.length ≤ fuel := by
        have : rest.length + 1 ≤ fuel + 1 := by simpa using hl
        omega
      simp only [removeBrF]
      split
      · rename_i hc
        split
        · rename_i s hdu
          apply ih
          have h1 := dropUntil_length hdu
          have h2 : (s.drop 1).length = s.length - 1 := List.length_drop 1 s
          omega
        · rename_i hdu
          simp only [hasSpan]
          rw [not_mem_containsChar
                (fun hmem => dropUntil_none_not_mem hdu (mem_removeBrF _ _ hmem)),
              ih _ hrest]
          simp
      · rename_i hc
        simp only [hasSpan]
        rw [ih _ hrest]
        simp [hc]

theorem removeBrF_eq_self :
    ∀ (fuel : Nat) (l : List Char), hasSpan l = false → removeBrF fuel l = l := by
  intro fuel
  induction fuel with
  | zero => intro l _; rfl
  | succ fuel ih =>
    intro l h
    match l with
    | [] => rfl
    | c :: rest =>
      simp only [hasSpan, Bool.or_eq_false_iff] at h
      obtain ⟨h1, h2⟩ := h
      simp only [removeBrF]
      split
      · rename_i hc
        have hcontains : containsChar cbr rest = false := by
          rcases Bool.and_eq_false_iff.mp h1 with h3 | h3
          · exact absurd hc (by simpa using h3)
          · exact h3
        rw [not_mem_dropUntil_none (containsChar_false_not_mem hcontains)]
        rw [ih _ h2]
      · rw [ih _ h2]

/-- Claim C5: the task-description sanitization deletes every
brace-delimited span (no span remains in its output), is idempotent,
and maps "Summarize \x7btopic\x7d findings" to "Summarize  findings". -/
theorem claim_C5 :
    (∀ s : String, removeBraces (removeBraces s) = removeBraces s) ∧
    (∀ s : String, hasSpan (removeBraces s).data = false) ∧
    removeBraces "Summarize \x7btopic\x7d findings" = "Summarize  findings" := by
  have hns : ∀ s : String, hasSpan (removeBraces s).data = false := by
    intro s
    exact hasSpan_removeBrF _ _ (le_refl _)
  refine ⟨?_, hns, by decide⟩
  intro s
  show String.mk (removeBr (removeBr s.data)) = String.mk (removeBr s.data)
  congr 1
  show removeBrF (removeBr s.data).length (removeBr s.data) = removeBr s.data
  exact removeBrF_eq_self _ _ (hns s)

/-- Claim C1 (code behavior at the failing input): binding two agent
specs that share the role "Researcher" does not raise any error; the
role-to-agent dict silently keeps a single entry holding the *second*
spec's agent.  The code has no duplicate-role check at all. -/
theorem claim_C1_code_behavior :
    create_agents
        [(AgentSpec.mk "Researcher" "Find facts" "Curious analyst" []).toJson,
         (AgentSpec.mk "Researcher" "Summarize facts" "Diligent editor" []).toJson]
      = Except.ok
          ([("Researcher",
             AgentHandle.mk "Researcher" "Summarize facts" "Diligent editor" [])], []) :=
  rfl

/-- Claim C3 (code behavior at the failing input): when the model's raw
text parses to a JSON object with no "agents" key, `execute` raises a
shape error (Python KeyError "agents") — an error constructor distinct
from the task binder's unknown-agent-role error, so neither of the two
errors the claim allows — and the engine is never invoked. -/
theorem claim_C3_code_behavior :
    executeModel (fun c i => (c, i)) "\x7b\x7d".data "any goal" []
      = Except.error (PipelineError.shapeError "agents") :=
  rfl

/-- Claim C2: for any raw model text that fails to parse even after
normalization and recovery, extraction does not fail: it returns
exactly the deterministic fallback document for the goal — the
"Researcher" (tool ExaSearchTool) and "Writer" (no tools) agents, the
two goal-interpolated task descriptions assigned to those roles, and
the "sequential" process.  Determinism is immediate: the embedded
extractor is a pure function of the raw text and the goal. -/
theorem claim_C2 :
    ∀ (raw : List Char) (goal : String),
      json_loads (extractContent raw) = none →
      analyze raw goal = fallbackJson goal ∧
      getJListField (fallbackJson goal) "agents"
        = Except.ok
            [(AgentSpec.mk "Researcher" "Research information related to the task"
                "Expert researcher with analytical skills" ["ExaSearchTool"]).toJson,
             (AgentSpec.mk "Writer" "Create content based on research findings"
                "Expert writer skilled at creating engaging content" []).toJson] ∧
      getJListField (fallbackJson goal) "tasks"
        = Except.ok
            [(TaskSpec.mk ("Research information about: " ++ goal)
                "Comprehensive research findings" "Researcher").toJson,
             (TaskSpec.mk ("Create content about: " ++ goal ++ " based on the research")
                "Engaging and informative content" "Writer").toJson] ∧
      getProcessField (fallbackJson goal) = Except.ok "sequential" := by
  intro raw goal h
  refine ⟨?_, rfl, rfl, rfl⟩
  unfold analyze
  rw [h]

/-- Witness for claim C2 at a concrete unparseable raw text. -/
theorem claim_C2_witness :
    json_loads (extractContent "The model refused to answer.".data) = none ∧
    analyze "The model refused to answer.".data "tidal energy"
      = fallbackJson "tidal energy" :=
  ⟨rfl, (claim_C2 "The model refused to answer.".data "tidal energy" rfl).1⟩

/-- Claim C7: topology selection is total — the crew's process is
hierarchical exactly when the lower-cased process string equals
"hierarchical", every other string yields sequential, and an absent
process field defaults to "sequential". -/
theorem claim_C7 :
    (∀ (s : String) (agents : List (String × AgentHandle)) (tasks : List TaskHandle),
      ((create_crew agents tasks s).process = Process.hierarchical ↔
        pyLower s = "hierarchical")) ∧
    (create_crew [] [] "Hierarchical").process = Process.hierarchical ∧
    (create_crew [] [] "HIERARCHICAL").process = Process.hierarchical ∧
    (create_crew [] [] "hierarchical").process = Process.hierarchical ∧
    (create_crew [] [] "").process = Process.sequential ∧
    (create_crew [] [] "foo").process = Process.sequential ∧
    getProcessField (Json.jobj [("agents", Json.jarr []), ("tasks", Json.jarr [])])
      = Except.ok "sequential" ∧
    (create_crew [] [] "sequential").process = Process.sequential := by
  refine ⟨?_, by decide, by decide, by decide, by decide, by decide, rfl, by decide⟩
  intro s agents tasks
  by_cases h : pyLower s = "hierarchical" <;> simp [create_crew, h]

/-- Witness for claim C7 applied at a mixed-case concrete input. -/
theorem claim_C7_witness :
    (create_crew [] [] "HiErArChIcAl").process = Process.hierarchical :=
  (claim_C7.1 "HiErArChIcAl" [] []).mpr (by decide)

theorem create_tasksAux_toJson_cons (s : TaskSpec) (rest : List Json)
    (agents : List (String × AgentHandle)) :
    create_tasksAux (s.toJson :: rest) agents =
      match lookupDict agents s.agent_role with
      | none => Except.error (PipelineError.unknownAgentRole s.agent_role)
      | some ag =>
        match create_tasksAux rest agents with
        | Except.error e => Except.error e
        | Except.ok ts =>
          Except.ok (TaskHandle.mk (removeBraces s.description) s.expected_output ag :: ts) :=
  rfl

theorem create_tasksAux_error_char :
    ∀ (specs : List TaskSpec) (agents : List (String × AgentHandle))
      (e : PipelineError),
      create_tasksAux (specs.map TaskSpec.toJson) agents = Except.error e →
      ∃ s ∈ specs, lookupDict agents s.agent_role = none ∧
        e = PipelineError.unknownAgentRole s.agent_role := by
  intro specs
  induction specs with
  | nil => intro agents e h; cases h
  | cons s rest ih =>
    intro agents e h
    rw [List.map_cons, create_tasksAux_toJson_cons] at h
    cases hlk : lookupDict agents s.agent_role with
    | none =>
      rw [hlk] at h
      injection h with h'
      exact ⟨s, List.mem_cons_self s rest, hlk, h'.symm⟩
    | some ag =>
      rw [hlk] at h
      cases hrec : create_tasksAux (rest.map TaskSpec.toJson) agents with
      | error e' =>
        rw [hrec] at h
        injection h with h'
        obtain ⟨s', hmem, hnone, heq⟩ := ih agents e' hrec
        exact ⟨s', List.mem_cons_of_mem _ hmem, hnone, h'.symm ▸ heq⟩
      | ok ts =>
        rw [hrec] at h
        cases h

theorem create_tasksAux_ok_char :
    ∀ (specs : List TaskSpec) (agents : List (String × AgentHandle))
      (ts : List TaskHandle),
      create_tasksAux (specs.map TaskSpec.toJson) agents = Except.ok ts →
      ∀ s ∈ specs, (lookupDict agents s.agent_role).isSome := by
  intro specs
  induction specs with
  | nil => intro agents ts _ s hs; cases hs
  | cons s rest ih =>
    intro agents ts h s' hs'
    rw [List.map_cons, create_tasksAux_toJson_cons] at h
    cases hlk : lookupDict agents s.agent_role with
    | none => rw [hlk] at h; cases h
    | some ag =>
      rw [hlk] at h
      cases hrec : create_tasksAux (rest.map TaskSpec.toJson) agents with
      | error e' => rw [hrec] at h; cases h
      | ok ts' =>
        rcases List.mem_cons.mp hs' with h1 | h1
        · rw [h1, hlk]; rfl
        · exact ih agents ts' hrec s' h1

/-- Claim C4: task binding fails exactly when some spec's agent role is
absent from the bound agent mapping, every such failure is the
unknown-agent-role error carrying an absent role, and in particular a
spec with role "Editor" against a mapping holding only "Researcher" and
"Writer" raises it. -/
theorem claim_C4 :
    (∀ (specs : List TaskSpec) (agents : List (String × AgentHandle)),
      ((∃ e, create_tasks (specs.map TaskSpec.toJson) agents = Except.error e) ↔
        ∃ s ∈ specs, lookupDict agents s.agent_role = none)) ∧
    (∀ (specs : List TaskSpec) (agents : List (String × AgentHandle))
       (e : PipelineError),
      create_tasks (specs.map TaskSpec.toJson) agents = Except.error e →
      ∃ s ∈ specs, lookupDict agents s.agent_role = none ∧
        e = PipelineError.unknownAgentRole s.agent_role) ∧
    create_tasks [(TaskSpec.mk "Edit the draft" "A polished draft" "Editor").toJson]
        [("Researcher", researcherHandle), ("Writer", writerHandle)]
      = Except.error (PipelineError.unknownAgentRole "Editor") := by
  refine ⟨?_, ?_, rfl⟩
  · intro specs agents
    constructor
    · rintro ⟨e, he⟩
      obtain ⟨s, hmem, hnone, _⟩ := create_tasksAux_error_char specs agents e he
      exact ⟨s, hmem, hnone⟩
    · rintro ⟨s, hmem, hnone⟩
      cases hres : create_tasks (specs.map TaskSpec.toJson) agents with
      | error e => exact ⟨e, rfl⟩
      | ok ts =>
        have := create_tasksAux_ok_char specs agents ts hres s hmem
        rw [hnone] at this
        cases this
  · exact fun specs agents e h => create_tasksAux_error_char specs agents e h

/-- Witness for claim C4's error characterization at the concrete
"Editor" input. -/
theorem claim_C4_witness :
    ∃ s ∈ [TaskSpec.mk "Edit the draft" "A polished draft" "Editor"],
      lookupDict [("Researcher", researcherHandle), ("Writer", writerHandle)]
          s.agent_role = none ∧
        PipelineError.unknownAgentRole "Editor"
          = PipelineError.unknownAgentRole s.agent_role :=
  claim_C4.2.1 [TaskSpec.mk "Edit the draft" "A polished draft" "Editor"]
    [("Researcher", researcherHandle), ("Writer", writerHandle)]
    (PipelineError.unknownAgentRole "Editor") rfl

theorem resolveTools_fst :
    ∀ names : List String,
      (resolveTools names).1 = names.filterMap (lookupDict tools_map) := by
  intro names
  induction names with
  | nil => rfl
  | cons n rest ih =>
    simp only [resolveTools, List.filterMap_cons]
    cases hlk : lookupDict tools_map n with
    | none => simpa [hlk] using ih
    | some t => simpa [hlk] using ih

theorem resolveTools_snd :
    ∀ names : List String,
      (resolveTools names).2 =
        (names.filter (fun n => (lookupDict tools_map n).isNone)).map
          (fun n => "Warning: Tool \x27" ++ n ++ "\x27 not found, skipping") := by
  intro names
  induction names with
  | nil => rfl
  | cons n rest ih =>
    simp only [resolveTools, List.filter_cons]
    cases hlk : lookupDict tools_map n with
    | none => simpa [hlk] using ih
    | some t => simpa [hlk] using ih

theorem jstrList_map :
    ∀ ss : List String, jstrList (ss.map jstr) = Except.ok ss := by
  intro ss
  induction ss with
  | nil => rfl
  | cons s rest ih => simp [jstrList, ih]

theorem create_agentsAux_toJson_cons (spec : AgentSpec) (rest : List Json)
    (agents : List (String × AgentHandle)) (warns : List String) :
    create_agentsAux (spec.toJson :: rest) agents warns =
      match jstrList (spec.tools.map jstr) with
      | Except.error e => Except.error e
      | Except.ok names =>
        create_agentsAux rest
          (dictInsert agents spec.role
            (AgentHandle.mk spec.role spec.goal spec.backstory (resolveTools names).1))
          (warns ++ (resolveTools names).2) :=
  rfl

/-- Claim C9: resolving an agent spec's tool names keeps exactly the
registry-resolvable names in their original order, records one warning
per unknown name, and binding still constructs the agent and adds it to
the mapping — unknown tool names never make binding fail. -/
theorem claim_C9 :
    (∀ names : List String,
      (resolveTools names).1 = names.filterMap (lookupDict tools_map)) ∧
    (∀ names : List String,
      (resolveTools names).2 =
        (names.filter (fun n => (lookupDict tools_map n).isNone)).map
          (fun n => "Warning: Tool \x27" ++ n ++ "\x27 not found, skipping")) ∧
    (∀ spec : AgentSpec,
      create_agents [spec.toJson] =
        Except.ok
          ([(spec.role,
             AgentHandle.mk spec.role spec.goal spec.backstory
               (resolveTools spec.tools).1)],
           (resolveTools spec.tools).2)) ∧
    lookupDict tools_map "NoSuchTool" = none ∧
    create_agents
        [(AgentSpec.mk "Researcher" "Research the topic" "A curious analyst"
            ["NoSuchTool", "ExaSearchTool"]).toJson]
      = Except.ok
          ([("Researcher",
             AgentHandle.mk "Researcher" "Research the topic" "A curious analyst"
               [Tool.exaSearchTool])],
           ["Warning: Tool \x27NoSuchTool\x27 not found, skipping"]) := by
  refine ⟨resolveTools_fst, resolveTools_snd, ?_, rfl, rfl⟩
  intro spec
  show create_agentsAux [spec.toJson] [] [] = _
  rw [create_agentsAux_toJson_cons, jstrList_map]
  rfl

theorem exaFormat_blocks :
    ∀ (rs : List ExaResult) (idx : Nat),
      pyJoin "\n" (exaFragments idx rs) = pyJoin "\n" (amendedExaBlocks idx rs) := by
  intro rs
  induction rs with
  | nil => intro idx; rfl
  | cons r rest ih =>
    intro idx
    cases rest with
    | nil => rfl
    | cons r2 rest2 =>
      show _ ++ "\n" ++ (_ ++ "\n" ++ pyJoin "\n" (exaFragments (idx + 1) (r2 :: rest2)))
        = actualExaBlock idx r ++ "\n" ++ pyJoin "\n" (amendedExaBlocks (idx + 1) (r2 :: rest2))
      rw [← ih (idx + 1)]
      simp [actualExaBlock, String.append_assoc]

/-- Claim C8 (amended): `exa_search_tool` emits, per result, the block
`"[SOURCE \x7bi\x7d]\nTitle: \x7btitle\x7d\nURL: \x7burl\x7d\n\nHighlights:\n\x7bjoinedHighlights\x7d\n\n"`
— with a blank line between the URL line and the Highlights header —
and joins consecutive blocks with one extra newline (`"\n".join`), as
the concrete two-result evaluation shows byte-for-byte. -/
theorem claim_C8_amended :
    (∀ rs : List ExaResult, exa_search_tool rs = amendedExaFormat rs) ∧
    actualExaBlock 0 (ExaResult.mk "t" "u" ["h"])
      = "[SOURCE 1]\nTitle: t\nURL: u\n\nHighlights:\nh\n\n" ∧
    exa_search_tool [ExaResult.mk "t" "u" ["h1", "h2"], ExaResult.mk "s" "v" []]
      = "[SOURCE 1]\nTitle: t\nURL: u\n\nHighlights:\nh1h2\n\n\n[SOURCE 2]\nTitle: s\nURL: v\n\nHighlights:\n\n\n" := by
  exact ⟨fun rs => exaFormat_blocks rs 0, by decide, by decide⟩

/-- Claim C8 (counterexample): already for a single result the tool's
output is not the concatenation of the spec's claimed blocks — the
`"\n".join` separator leaves a blank line the claimed format lacks. -/
theorem claim_C8_counterexample :
    exa_search_tool [ExaResult.mk "t" "u" ["h"]]
      ≠ claimedExaFormat 0 [ExaResult.mk "t" "u" ["h"]] := by
  decide

/-- Claim C10: whenever extraction falls back, the fallback document
binds cleanly end to end — the pipeline reaches the execution-engine
hand-off with the fallback crew, the two fallback roles are distinct
(so a duplicate-role condition cannot arise), and every fallback task
references one of those two roles (so the unknown-agent-role branch is
unreachable). -/
theorem claim_C10 :
    ∀ {R : Type} (engine : Crew → List (String × String) → R)
      (raw : List Char) (goal : String) (inputs : List (String × String)),
      json_loads (extractContent raw) = none →
      executeModel engine raw goal inputs
          = Except.ok (engine (fallbackCrew goal) inputs) ∧
      researcherHandle.role ≠ writerHandle.role ∧
      (∀ t ∈ (fallbackCrew goal).tasks,
        t.agent.role = researcherHandle.role ∨ t.agent.role = writerHandle.role) := by
  intro R engine raw goal inputs h
  have hd : analyze raw goal = fallbackJson goal := by
    unfold analyze
    rw [h]
  refine ⟨?_, by decide, ?_⟩
  · show bindAndRun engine (analyze raw goal) inputs = _
    rw [hd]
    rfl
  · intro t ht
    rcases List.mem_cons.mp ht with h1 | h1
    · exact Or.inl (by rw [h1])
    · rcases List.mem_cons.mp h1 with h2 | h2
      · exact Or.inr (by rw [h2])
      · cases h2

/-- Witness for claim C10 at a concrete unparseable raw text. -/
theorem claim_C10_witness :
    executeModel (fun c _ => c) "The model crashed.".data "write an essay" []
      = Except.ok (fallbackCrew "write an essay") :=
  (claim_C10 (fun c _ => c) "The model crashed.".data "write an essay" [] rfl).1

theorem mem_pyStrip {x : Char} {l : List Char} (h : x ∈ pyStrip l) : x ∈ l := by
  unfold pyStrip at h
  rw [List.mem_reverse] at h
  have h1 := (List.dropWhile_sublist _).mem h
  rw [List.mem_reverse] at h1
  exact (List.dropWhile_sublist _).mem h1

theorem containsSub_btick_false {l : List Char} (h : ∀ c ∈ l, c ≠ btick)
    (ps : List Char) : containsSub (btick :: ps) l = false := by
  induction l with
  | nil => rfl
  | cons c rest ih =>
    simp only [containsSub, Bool.or_eq_false_iff]
    refine ⟨?_, ih fun c' hc' => h c' (List.mem_cons_of_mem _ hc')⟩
    simp only [List.isPrefixOf, Bool.and_eq_false_iff]
    left
    exact beq_eq_false_iff_ne.mpr fun hb => h c (List.mem_cons_self c rest) hb.symm

theorem containsSub_of_isPrefixOf {pat l : List Char} (h : pat.isPrefixOf l = true) :
    containsSub pat l = true := by
  cases l with
  | nil =>
    cases pat with
    | nil => rfl
    | cons p ps => cases h
  | cons c rest => simp [containsSub, h]

theorem containsSub_append_right (pat r : List Char) (h : containsSub pat r = true) :
    ∀ l : List Char, containsSub pat (l ++ r) = true := by
  intro l
  induction l with
  | nil => simpa using h
  | cons c l' ih => simp [containsSub, ih]

theorem dropUntil_append_not_mem {t : Char} {a : List Char} (ha : t ∉ a)
    (r : List Char) : dropUntil t (a ++ r) = dropUntil t r := by
  induction a with
  | nil => rfl
  | cons c a' ih =>
    simp only [List.mem_cons, not_or] at ha
    simp only [List.cons_append, dropUntil]
    rw [if_neg fun hc => ha.1 hc.symm]
    exact ih ha.2

theorem braceSpan_pad (a b l : List Char) (ha : obr ∉ a) (hb : cbr ∉ b)
    (hh : l.head? = some obr) (hl : l.getLast? = some cbr) :
    braceSpan (a ++ l ++ b) = some l := by
  obtain ⟨t, rfl⟩ : ∃ t, l = obr :: t := by
    cases l with
    | nil => cases hh
    | cons c t => exact ⟨t, by injection hh with h'; rw [h']⟩
  have hd1 : dropUntil obr (a ++ (obr :: t) ++ b) = some ((obr :: t) ++ b) := by
    rw [List.append_assoc, dropUntil_append_not_mem ha]
    simp [dropUntil]
  obtain ⟨t', ht'⟩ : ∃ t', (obr :: t).reverse = cbr :: t' := by
    have hx : (obr :: t).reverse.head? = some cbr := by
      rw [List.head?_reverse]
      exact hl
    cases hrev : (obr :: t).reverse with
    | nil => rw [hrev] at hx; cases hx
    | cons c' t' =>
      rw [hrev] at hx
      injection hx with h'
      exact ⟨t', by rw [h']⟩
  have hd2 : dropUntil cbr ((obr :: t) ++ b).reverse = some ((obr :: t).reverse) := by
    rw [List.reverse_append,
        dropUntil_append_not_mem (by simpa [List.mem_reverse] using hb), ht']
    simp [dropUntil]
  unfold braceSpan
  rw [show (a ++ obr :: t ++ b : List Char) = a ++ ((obr :: t) ++ b) from
        List.append_assoc a (obr :: t) b,
      dropUntil_append_not_mem ha,
      show dropUntil obr ((obr :: t) ++ b) = some ((obr :: t) ++ b) from by
        simp [dropUntil]]
  show (match dropUntil cbr ((obr :: t) ++ b).reverse with
        | none => none
        | some r => some r.reverse) = some (obr :: t)
  rw [hd2]
  show some (obr :: t).reverse.reverse = some (obr :: t)
  rw [List.reverse_reverse]

theorem dropWhile_ws_eq_self {l : List Char}
    (h : ∀ c, l.head? = some c → isWsChar c = false) :
    l.dropWhile isWsChar = l := by
  cases l with
  | nil => rfl
  | cons c t =>
    rw [List.dropWhile_cons]
    simp [h c rfl]

theorem pyStrip_eq_self (l : List Char) (c c' : Char) (hh : l.head? = some c)
    (hc : isWsChar c = false) (hl : l.getLast? = some c') (hc' : isWsChar c' = false) :
    pyStrip l = l := by
  have hinner : l.dropWhile isWsChar = l :=
    dropWhile_ws_eq_self (fun d hd => by
      rw [hh] at hd; injection hd with h'; rwa [← h'])
  have houter : l.reverse.dropWhile isWsChar = l.reverse :=
    dropWhile_ws_eq_self (fun d hd => by
      rw [List.head?_reverse, hl] at hd; injection hd with h'; rwa [← h'])
  unfold pyStrip
  rw [hinner, houter]
  exact List.reverse_reverse l

theorem pyStrip_decomp (l : List Char) :
    ∃ a b, l = a ++ pyStrip l ++ b ∧ (∀ c ∈ a, isWsChar c = true) ∧
      (∀ c ∈ b, isWsChar c = true) := by
  refine ⟨l.takeWhile isWsChar,
    ((l.dropWhile isWsChar).reverse.takeWhile isWsChar).reverse, ?_, ?_, ?_⟩
  · conv_lhs => rw [← List.takeWhile_append_dropWhile isWsChar l]
    rw [List.append_assoc]
    congr 1
    have hd : (l.dropWhile isWsChar).reverse
        = (l.dropWhile isWsChar).reverse.takeWhile isWsChar
          ++ (l.dropWhile isWsChar).reverse.dropWhile isWsChar :=
      (List.takeWhile_append_dropWhile _ _).symm
    have h2 := congrArg List.reverse hd
    rw [List.reverse_reverse, List.reverse_append] at h2
    exact h2
  · intro c hc
    exact List.mem_takeWhile_imp hc
  · intro c hc
    rw [List.mem_reverse] at hc
    exact List.mem_takeWhile_imp hc

theorem replaceAllF_nil (p : Char) (ps : List Char) (fuel : Nat) :
    replaceAllF p ps fuel [] = [] := by
  cases fuel <;> rfl

theorem replaceAllF_cons_ne {c : Char} (hne : c ≠ btick) (fuel : Nat)
    (rest : List Char) :
    replaceAllF btick [btick, btick] (fuel + 1) (c :: rest)
      = c :: replaceAllF btick [btick, btick] fuel rest := by
  simp only [replaceAllF]
  rw [if_neg]
  intro hp
  simp only [List.isPrefixOf, Bool.and_eq_true, beq_iff_eq] at hp
  exact hne hp.1.symm

theorem replaceAllF_fence (fuel : Nat) :
    replaceAllF btick [btick, btick] (fuel + 1) fence3 = [] := by
  show replaceAllF btick [btick, btick] (fuel + 1) (btick :: [btick, btick]) = []
  simp only [replaceAllF]
  rw [if_pos (by decide)]
  exact replaceAllF_nil _ _ _

theorem replaceAllF_clean :
    ∀ (l : List Char), (∀ c ∈ l, c ≠ btick) →
      ∀ fuel, (l ++ '\n' :: fence3).length ≤ fuel →
      replaceAllF btick [btick, btick] fuel (l ++ '\n' :: fence3) = l ++ ['\n'] := by
  intro l
  induction l with
  | nil =>
    intro _ fuel hfuel
    simp only [List.nil_append] at hfuel ⊢
    have h4 : 4 ≤ fuel := by simpa [fence3] using hfuel
    obtain ⟨f, rfl⟩ : ∃ f, fuel = f + 1 := ⟨fuel - 1, by omega⟩
    rw [replaceAllF_cons_ne (by decide) f fence3]
    obtain ⟨f', rfl⟩ : ∃ f', f = f' + 1 := ⟨f - 1, by omega⟩
    rw [replaceAllF_fence]
  | cons c l' ih =>
    intro hclean fuel hfuel
    obtain ⟨f, rfl⟩ : ∃ f, fuel = f + 1 :=
      ⟨fuel - 1, by simp [List.length_cons] at hfuel; omega⟩
    rw [List.cons_append, replaceAllF_cons_ne (hclean c (List.mem_cons_self _ _)) f]
    rw [ih (fun d hd => hclean d (List.mem_cons_of_mem _ hd)) f
        (by simp only [List.length_append, List.length_cons] at hfuel ⊢; omega)]
    rfl

theorem fenceStep1_clean {c0 : List Char} (h : ∀ c ∈ c0, c ≠ btick) :
    fenceStep1 c0 = c0 := by
  have hcond : containsSub fenceJson c0 = false :=
    containsSub_btick_false h (fenceJson.drop 1)
  simp [fenceStep1, hcond]

theorem fenceStep2_clean {c0 : List Char} (h : ∀ c ∈ c0, c ≠ btick) :
    fenceStep2 c0 = c0 := by
  have hcond : containsSub fence3 c0 = false :=
    containsSub_btick_false h (fence3.drop 1)
  simp [fenceStep2, hcond]

theorem recoverSpan_self {l : List Char} (hh : l.head? = some obr)
    (hl : l.getLast? = some cbr) : recoverSpan l = l := by
  have hbs := braceSpan_pad [] [] l (by simp) (by simp) hh hl
  simp only [List.nil_append, List.append_nil] at hbs
  simp [recoverSpan, hbs]

theorem extractContent_clean {raw : List Char} (hclean : ∀ c ∈ raw, c ≠ btick)
    (hh : (pyStrip raw).head? = some obr) (hl : (pyStrip raw).getLast? = some cbr) :
    extractContent raw = pyStrip raw := by
  have h0 : ∀ c ∈ pyStrip raw, c ≠ btick := fun c hc => hclean c (mem_pyStrip hc)
  unfold extractContent
  rw [fenceStep1_clean h0, fenceStep2_clean h0, recoverSpan_self hh hl]

theorem extractContent_wrapped {raw : List Char} (hclean : ∀ c ∈ raw, c ≠ btick)
    (hh : (pyStrip raw).head? = some obr) (hl : (pyStrip raw).getLast? = some cbr) :
    extractContent (wrapFence raw) = pyStrip raw := by
  have h0 : pyStrip (wrapFence raw) = wrapFence raw := by
    refine pyStrip_eq_self (wrapFence raw) btick btick rfl (by decide) ?_ (by decide)
    have hsp : wrapFence raw = (fenceJson ++ '\n' :: raw) ++ ('\n' :: fence3) := by
      simp [wrapFence, List.append_assoc]
    rw [hsp, List.getLast?_append_of_ne_nil _ (by simp)]
    rfl
  have h1 : fenceStep1 (wrapFence raw) = '\n' :: raw ++ '\n' :: fence3 := rfl
  have hc2 : containsSub fence3 ('\n' :: raw ++ '\n' :: fence3) = true := by
    have hsp : ('\n' :: raw ++ '\n' :: fence3 : List Char)
        = ('\n' :: raw ++ ['\n']) ++ fence3 := by
      simp [List.append_assoc]
    rw [hsp]
    exact containsSub_append_right fence3 fence3 (by decide) _
  have h2 : fenceStep2 ('\n' :: raw ++ '\n' :: fence3) = '\n' :: raw ++ ['\n'] := by
    simp only [fenceStep2, hc2, if_true]
    have hcl : ∀ c ∈ ('\n' :: raw : List Char), c ≠ btick := by
      intro c hc
      rcases List.mem_cons.mp hc with h | h
      · rw [h]; decide
      · exact hclean c h
    exact replaceAllF_clean ('\n' :: raw) hcl _ (le_refl _)
  have h3 : recoverSpan ('\n' :: raw ++ ['\n']) = pyStrip raw := by
    obtain ⟨a, b, hdecomp, hwa, hwb⟩ := pyStrip_decomp raw
    have hsplit : ('\n' :: raw ++ ['\n'] : List Char)
        = ('\n' :: a) ++ pyStrip raw ++ (b ++ ['\n']) := by
      conv_lhs => rw [hdecomp]
      simp [List.append_assoc]
    have ha : obr ∉ ('\n' :: a : List Char) := by
      intro hmem
      rcases List.mem_cons.mp hmem with h | h
      · exact absurd h (by decide)
      · exact absurd (hwa obr h) (by decide)
    have hb : cbr ∉ (b ++ ['\n'] : List Char) := by
      intro hmem
      rcases List.mem_append.mp hmem with h | h
      · exact absurd (hwb cbr h) (by decide)
      · rcases List.mem_cons.mp h with h' | h'
        · exact absurd h' (by decide)
        · cases h'
    rw [hsplit]
    have hbs := braceSpan_pad ('\n' :: a) (b ++ ['\n']) (pyStrip raw) ha hb hh hl
    simp only [List.cons_append, List.append_assoc] at hbs
    simp [recoverSpan, List.cons_append, List.append_assoc, hbs]
  show recoverSpan (fenceStep2 (fenceStep1 (pyStrip (wrapFence raw)))) = pyStrip raw
  rw [h0, h1, h2, h3]

/-- Claim C6 (amended): for raw model text containing no backtick whose
trimmed form is a brace-delimited JSON-object text, (1) a successful
parse of the trimmed text is returned by extraction exactly as parsed
(agents, tasks and process round-trip unchanged), and (2) wrapping the
text in "```json"/"```" code fences yields the same extracted document
as the unwrapped text. -/
theorem claim_C6_amended :
    ∀ (raw : List Char) (goal : String),
      (∀ c ∈ raw, c ≠ btick) →
      (pyStrip raw).head? = some obr →
      (pyStrip raw).getLast? = some cbr →
      (∀ j : Json, json_loads (pyStrip raw) = some j → analyze raw goal = j) ∧
      analyze (wrapFence raw) goal = analyze raw goal := by
  intro raw goal hclean hh hl
  constructor
  · intro j hj
    unfold analyze
    rw [extractContent_clean hclean hh hl, hj]
  · unfold analyze
    rw [extractContent_wrapped hclean hh hl, extractContent_clean hclean hh hl]

/-- Witness for claim C6 (amended) at a concrete well-formed JSON text
with surrounding whitespace. -/
theorem claim_C6_witness :
    analyze " \x7b\"process\": \"x\"\x7d ".data "g"
      = Json.jobj [("process", Json.jstr "x")] ∧
    analyze (wrapFence " \x7b\"process\": \"x\"\x7d ".data) "g"
      = analyze " \x7b\"process\": \"x\"\x7d ".data "g" := by
  have h := claim_C6_amended " \x7b\"process\": \"x\"\x7d ".data "g"
    (by decide) (by decide) (by decide)
  exact ⟨h.1 (Json.jobj [("process", Json.jstr "x")]) rfl, h.2⟩

/-- Claim C6 (counterexample): for raw text containing a backtick fence
marker inside a JSON string, wrapping in code fences changes the
extracted document — the global "```" deletion mangles the payload
differently in the two cases. -/
theorem claim_C6_counterexample :
    analyze (wrapFence "\x7b\"a\": \"```json\"\x7d".data) "g"
      ≠ analyze "\x7b\"a\": \"```json\"\x7d".data "g" := by
  rw [show analyze (wrapFence "\x7b\"a\": \"```json\"\x7d".data) "g"
        = Json.jobj [("a", Json.jstr "json")] from rfl,
      show analyze "\x7b\"a\": \"```json\"\x7d".data "g"
        = Json.jobj [("a", Json.jstr "")] from rfl]
  simp

end DynamicCrew
